import Mathlib

/-!
Verification development for the Pig dice game engine
(repository `Sustainable-development`).

The repository contains two implementations of the game engine:

* the "god class" `Game` in `src/game.py`, together with `CheatManager`
  and `SaveManager` from the same file, operating on the `Player` of
  `src/player.py` (imported as `from .player import Player`), which
  stores names verbatim and offers only `name`/`current_score`/
  `add_to_score`/`reset_score` — it defines **no** `set_name_safely`,
  `set_score` or `create_player_with_name`, so the `Game` methods that
  call those (notably `load_game`) raise `AttributeError` at runtime;
* the manager facade (`src/game/game.py`) built from `StateManager`,
  `MoveManager`, `PersistenceManager` (`src/managers/`), operating on
  `src/core/player.py` players.

Both are embedded below as pure functions over explicit state records.
Randomness (die draws, AI draws) is passed in explicitly, matching the
spec's requirement that the random source be injectable.  Fallible
Python code (raised `ValueError`s / `AttributeError`s) is modelled with
`Except` / `Option`; every guard in the sources precedes the mutations
it protects, so an error result faithfully corresponds to an unchanged
game object.  Statistics sinks (`Histogram`, `HighScore`) only consume
events and are not part of the game state; calls into them are omitted.
-/

namespace Pig

/-- Python's `str.strip()`: remove leading and trailing whitespace. -/
def pyStrip (s : String) : String :=
  ⟨List.reverse (List.dropWhile Char.isWhitespace
    (List.reverse (List.dropWhile Char.isWhitespace s.data)))⟩

/-- Python's `str.upper()` on the ASCII range. -/
def pyUpper (s : String) : String :=
  ⟨s.data.map Char.toUpper⟩

/-- Python's `str.lower()` on the ASCII range. -/
def pyLower (s : String) : String :=
  ⟨s.data.map Char.toLower⟩

instance {ε α : Type} [DecidableEq ε] [DecidableEq α] : DecidableEq (Except ε α) := fun a b =>
  match a, b with
  | .error e, .error f =>
      if h : e = f then isTrue (h ▸ rfl)
      else isFalse (fun c => h (by injection c))
  | .ok x, .ok y =>
      if h : x = y then isTrue (h ▸ rfl)
      else isFalse (fun c => h (by injection c))
  | .error _, .ok _ => isFalse (fun c => Except.noConfusion c)
  | .ok _, .error _ => isFalse (fun c => Except.noConfusion c)

/-- Which of the two stored player objects a Python reference denotes
(`self._player1` or `self._player2`).  The god class encodes the
computer opponent as `None`, i.e. `Option PSlot` with `none`. -/
inductive PSlot where
  | one
  | two
  deriving DecidableEq, Repr

/-- A scoreboard value: `Player` carries a name and a current score
(`src/player.py`, `src/core/player.py`).  Scores are naturals: both
constructors start at 0 and `add_to_score` / `set_score` reject
negative arguments. -/
structure Player where
  name : String
  score : Nat
  deriving DecidableEq, Repr

/-- Errors raised (as Python `ValueError`s) by the god-class engine. -/
inductive GError where
  | gameOverErr      -- "Cannot roll dice when game is over" / "Cannot hold when game is over"
  | zeroTurnScore    -- "Cannot hold with 0 turn score"
  | humanOpponent    -- "Cannot use computer turn when playing against another human"
  | negativePoints   -- Player.add_to_score: "Points cannot be negative"
  | unknownMode      -- DiceDifficulty.roll: "Unknown mode. Please try again."
  deriving DecidableEq, Repr

/-- `Player.__init__` of the god-class `src/player.py`: the name is
stored verbatim, whatever it is, and the score starts at 0. -/
def Player.initGod (name : String) : Player :=
  { name := name, score := 0 }

/-- `Player.__init__` of `src/core/player.py`: a blank (empty or
whitespace-only) name is silently replaced by the default `"Player"`,
any other name is trimmed; the score starts at 0. -/
def Player.initCore (name : String) : Player :=
  { name := if pyStrip name = "" then "Player" else pyStrip name, score := 0 }

/-- The `name` setter (both player classes agree): a blank name is
rejected with `ValueError("Player name cannot be empty")`, otherwise
the trimmed name is stored.  `set_name_safely` is the same check with
the error converted to `False`. -/
def Player.setName (p : Player) (newName : String) : Except String Player :=
  if pyStrip newName = "" then .error "Player name cannot be empty"
  else .ok { p with name := pyStrip newName }

/-- `Player.add_to_score`: negative point values are rejected,
otherwise the points are added. -/
def Player.addToScore (p : Player) (points : Int) : Except GError Player :=
  if points < 0 then .error .negativePoints
  else .ok { p with score := p.score + points.toNat }

/-- One entry of the god class's `_turn_history`
(`{'player': …, 'turn_score': …, 'total_score': …}`). -/
structure TurnRecord where
  player : String
  turnScore : Nat
  totalScore : Nat
  deriving DecidableEq, Repr

/-- The mutable state of the god-class `Game` (`src/game.py`).
`current = none` is Python's `self._current_player is None` (the
computer's turn in computer mode); `player2 = none` is computer mode. -/
structure Game where
  player1 : Player
  player2 : Option Player
  current : Option PSlot
  turnScore : Nat
  gameOver : Bool
  winner : Option PSlot
  computerScore : Nat
  computerWon : Bool
  currentDifficulty : String
  turnHistory : List TurnRecord
  diceHistory : List Nat
  deriving DecidableEq, Repr

/-- `Game.WINNING_SCORE = 100`. -/
def WINNING_SCORE : Nat := 100

/-- `Game.__init__(player1, player2=None)`: current player is player 1,
difficulty `"casual"`, everything else zeroed/empty. -/
def Game.init (p1 : Player) (p2 : Option Player) : Game :=
  { player1 := p1, player2 := p2, current := some .one, turnScore := 0,
    gameOver := false, winner := none, computerScore := 0,
    computerWon := false, currentDifficulty := "casual",
    turnHistory := [], diceHistory := [] }

/-- `Game._end_turn`: zero the turn score and alternate the current
player (player1 ↔ player2 in two-player mode, player1 ↔ `None` in
computer mode, with any other reference falling back to player1). -/
def Game.endTurn (S : Game) : Game :=
  let S1 := { S with turnScore := 0 }
  match S1.player2 with
  | some _ =>
      { S1 with current := some (if S1.current = some PSlot.one then PSlot.two else PSlot.one) }
  | none =>
      if S1.current = some PSlot.one then { S1 with current := none }
      else { S1 with current := some PSlot.one }

/-- `Game.roll_dice`, with the die value `v` drawn by `DiceHand`
injected.  Raises when the game is over (before any mutation), appends
the value to `_dice_history`, busts on 1 (zero turn score, end turn),
otherwise accumulates, and returns the value. -/
def Game.rollDice (S : Game) (v : Nat) : Except GError (Game × Nat) :=
  if S.gameOver then .error .gameOverErr
  else
    let S1 := { S with diceHistory := S.diceHistory ++ [v] }
    if v = 1 then .ok (Game.endTurn { S1 with turnScore := 0 }, v)
    else .ok ({ S1 with turnScore := S1.turnScore + v }, v)

/-- Look up the player object a slot denotes.  The dummy default is
never consulted on states where `current = some .two` implies the
presence of a second player (all states arising in Python). -/
def Game.playerAt (S : Game) : PSlot → Player
  | .one => S.player1
  | .two => S.player2.getD { name := "", score := 0 }

/-- Write back the player object a slot denotes. -/
def Game.setPlayerAt (S : Game) : PSlot → Player → Game
  | .one, p => { S with player1 := p }
  | .two, p => { S with player2 := some p }

/-- `Game.hold`: both guards precede every mutation.  The turn score is
credited to the current participant (`_computer_score` when the current
player is `None`), a turn record is appended, and either the game ends
(winner fixed, or `_computer_won` set — note the turn score is *not*
reset on this branch) or the turn passes. -/
def Game.hold (S : Game) : Except GError Game :=
  if S.gameOver then .error .gameOverErr
  else if S.turnScore = 0 then .error .zeroTurnScore
  else
    match S.current with
    | some pid =>
        let p0 := S.playerAt pid
        let p := { p0 with score := p0.score + S.turnScore }
        let S1 := S.setPlayerAt pid p
        let S2 := { S1 with turnHistory :=
          S1.turnHistory ++ [{ player := p.name, turnScore := S.turnScore, totalScore := p.score }] }
        if WINNING_SCORE ≤ p.score then
          .ok { S2 with gameOver := true, winner := some pid }
        else .ok (Game.endTurn S2)
    | none =>
        let cs := S.computerScore + S.turnScore
        let S2 := { S with computerScore := cs, turnHistory :=
          S.turnHistory ++ [{ player := "Computer", turnScore := S.turnScore, totalScore := cs }] }
        if WINNING_SCORE ≤ cs then
          .ok { S2 with computerWon := true, gameOver := true }
        else .ok (Game.endTurn S2)

/-- `Game.restart`: zero both scoreboards and the computer score, clear
histories and flags, current player back to player 1.  Player names and
the difficulty are retained. -/
def Game.restart (S : Game) : Game :=
  { S with player1 := { S.player1 with score := 0 },
           player2 := S.player2.map (fun p => { p with score := 0 }),
           computerScore := 0, computerWon := false,
           current := some .one, turnScore := 0, gameOver := false,
           winner := none, turnHistory := [], diceHistory := [] }

/-- `CheatManager.apply_cheat` composed with `Game.apply_cheat`
(`src/game.py`).  The target is the current player, or player 1 when
the current player is `None`; the code is stripped and upper-cased.
`WIN` adds `winning_score - current_score` (which `add_to_score`
rejects if negative) and, back in `Game.apply_cheat`, on success sets
`_game_over` and `_winner` directly; `SCORE10`/`SCORE25` bump the turn
score; `BONUS5`/`BONUS15` add to the target's total score with no win
check of any kind; `LIST`/`HELP` and unknown codes mutate nothing and
report failure.  The returned `Bool` is the success flag. -/
def Game.applyCheat (S : Game) (cheatCode : String) : Except GError (Game × Bool) :=
  let code := pyUpper (pyStrip cheatCode)
  let slot := S.current.getD PSlot.one
  let target := S.playerAt slot
  if code = "WIN" then
    match target.addToScore ((WINNING_SCORE : Int) - (target.score : Int)) with
    | .error e => .error e
    | .ok p => .ok ({ S.setPlayerAt slot p with gameOver := true, winner := some slot }, true)
  else if code = "SCORE10" then .ok ({ S with turnScore := S.turnScore + 10 }, true)
  else if code = "SCORE25" then .ok ({ S with turnScore := S.turnScore + 25 }, true)
  else if code = "BONUS5" then
    match target.addToScore 5 with
    | .error e => .error e
    | .ok p => .ok (S.setPlayerAt slot p, true)
  else if code = "BONUS15" then
    match target.addToScore 15 with
    | .error e => .error e
    | .ok p => .ok (S.setPlayerAt slot p, true)
  else .ok (S, false)

/-- `Game.input_cheat_code`: a blank input is answered with a prompt
and nothing happens; otherwise the state effect is exactly that of
`Game.apply_cheat` (the extra high-score recording goes to the stats
sink, which is outside the embedded state). -/
def Game.inputCheatCode (S : Game) (cheatCode : String) : Except GError (Game × Bool) :=
  if pyStrip cheatCode = "" then .ok (S, false)
  else S.applyCheat cheatCode

/-- The difficulty → roll-cap table shared by `DiceDifficulty.roll`
(`src/intelligence.py`) and `Game.computer_turn`; `none` for an
unrecognized tier. -/
def rollCountOf (mode : String) : Option Nat :=
  match mode with
  | "noob" => some 2
  | "casual" => some 4
  | "challenger" => some 6
  | "veteran" => some 8
  | "elite" => some 10
  | "legendary" => some 12
  | _ => none

/-- The loop of `DiceDifficulty.roll` over the values the tier pattern
would produce, one per prospective iteration: a drawn 1 is returned at
once, otherwise the values are summed.  Returns the result together
with the number of draws made. -/
def DiceDifficulty.rollLoop : List Nat → Nat → Nat × Nat
  | [], total => (total, 0)
  | v :: ds, total =>
      if v = 1 then (1, 1)
      else
        let r := DiceDifficulty.rollLoop ds (total + v)
        (r.1, r.2 + 1)

/-- `DiceDifficulty.roll(mode)` (`src/intelligence.py`), with the
per-draw values of the tier pattern injected as `draws` (every tier's
pattern draws values in 1..6); the loop runs over the first `cap`
prospective draws.  The mode string is stripped and lower-cased; an
unknown mode raises `ValueError`.  Returns the result and the number of
draws performed. -/
def DiceDifficulty.roll (mode : String) (draws : Nat → Nat) : Except GError (Nat × Nat) :=
  match rollCountOf (pyLower (pyStrip mode)) with
  | none => .error .unknownMode
  | some cap => .ok (DiceDifficulty.rollLoop ((List.range cap).map draws) 0)

/-- The roll loop of `Game.computer_turn`: up to `fuel` AI draws, each
appended to `_dice_history` and to the returned list; a drawn 1 zeroes
the turn score and ends the turn at once, other values accumulate.
(The `if self._game_over` checks inside the loop can never fire, since
no loop step sets the flag.) -/
def Game.computerLoop : List Nat → Game → List Nat → Game × List Nat
  | [], S, acc => (S, acc)
  | v :: ds, S, acc =>
      let S1 := { S with diceHistory := S.diceHistory ++ [v] }
      if v = 1 then (Game.endTurn { S1 with turnScore := 0 }, acc ++ [v])
      else Game.computerLoop ds { S1 with turnScore := S1.turnScore + v } (acc ++ [v])

/-- `Game.computer_turn(difficulty=None)` (so the configured
`_current_difficulty` is used), with the AI tier's draw values
injected.  Rejected in two-player mode and after game over; the cap is
looked up with a default of 4 for unrecognized tiers; after the loop a
positive leftover turn score is banked through `Game.hold`. -/
def Game.computerTurn (S : Game) (draws : Nat → Nat) : Except GError (Game × List Nat) :=
  if S.player2.isSome then .error .humanOpponent
  else if S.gameOver then .error .gameOverErr
  else
    let cap := (rollCountOf (pyLower S.currentDifficulty)).getD 4
    let (S1, rolls) := Game.computerLoop ((List.range cap).map draws) S []
    if 0 < S1.turnScore ∧ S1.gameOver = false then
      match Game.hold S1 with
      | .error e => .error e
      | .ok S2 => .ok (S2, rolls)
    else .ok (S1, rolls)

/-- The save record written by `Game.save_game` (the volatile
`save_timestamp` metadata field is omitted). -/
structure SaveData where
  player1Name : String
  player1Score : Nat
  player2 : Option (String × Nat)
  currentPlayerName : String
  turnScore : Nat
  gameOver : Bool
  winnerName : Option String
  currentDifficulty : String
  turnHistory : List TurnRecord
  diceHistory : List Nat
  deriving DecidableEq, Repr

/-- The name of the player a reference denotes, failing (Python
`AttributeError` on `None.name`) when the reference is `None` or
dangling. -/
def Game.nameOfRef (S : Game) : Option PSlot → Option String
  | some .one => some S.player1.name
  | some .two => S.player2.map Player.name
  | none => none

/-- `Game.save_game`: builds the save record.  Evaluating
`self._current_player.name` raises when the current player is `None`
(the computer's turn in computer mode), so saving fails there — note
that neither `_computer_score` nor `_computer_won` is part of the
record. -/
def Game.saveGame (S : Game) : Option SaveData :=
  (S.nameOfRef S.current).map fun cn =>
    { player1Name := S.player1.name, player1Score := S.player1.score,
      player2 := S.player2.map (fun p => (p.name, p.score)),
      currentPlayerName := cn, turnScore := S.turnScore,
      gameOver := S.gameOver, winnerName := S.nameOfRef S.winner,
      currentDifficulty := S.currentDifficulty,
      turnHistory := S.turnHistory, diceHistory := S.diceHistory }

/-- The message `Game.load_game` returns whenever a save record parses:
Python formats it as `"Failed to restore game state: " + str(e)`, where
`e` is the `AttributeError` saying the `Player` object has no attribute
`set_name_safely` (the quoted Python text is abbreviated here). -/
def loadFailureMessage : String :=
  "Failed to restore game state: no attribute set_name_safely"

/-- `Game.load_game` applied to an already-parsed save record and the
receiving game `σ`.  The very first statement of its `try` block is
`self._player1.set_name_safely(...)`, but the `Player` class this
`Game` imports (`src/player.py`) defines no `set_name_safely` (nor
`set_score` / `create_player_with_name`) — the attribute lookup raises
`AttributeError` before the arguments are even evaluated, the blanket
`except Exception` converts it into a failure message, and the
function returns with **no field of `σ` touched**.  Loading therefore
never succeeds, whatever the record or the receiving state. -/
def Game.loadGame (D : SaveData) (σ : Game) : Except String Game :=
  .error loadFailureMessage

/-- The operations of the god-class state machine that drive a game
session, with their injected randomness.  `computerTurn` carries the
list of AI draw values (padded with 2 past its end). -/
inductive Op where
  | roll (v : Nat)
  | hold
  | restart
  | cheat (code : String)
  | computerTurn (draws : List Nat)
  deriving DecidableEq, Repr

/-- Whether an operation is a cheat application. -/
def Op.isCheat : Op → Bool
  | .cheat _ => true
  | _ => false

/-- Execute one operation.  A die or AI draw must be a value an actual
die can produce (1..6); an operation that raises produces no state. -/
def Game.applyOp (S : Game) : Op → Option Game
  | .roll v =>
      if 1 ≤ v ∧ v ≤ 6 then
        match S.rollDice v with
        | .ok (S1, _) => some S1
        | .error _ => none
      else none
  | .hold =>
      match S.hold with
      | .ok S1 => some S1
      | .error _ => none
  | .restart => some S.restart
  | .cheat code =>
      match S.applyCheat code with
      | .ok (S1, _) => some S1
      | .error _ => none
  | .computerTurn ds =>
      if ds.all (fun v => 1 ≤ v ∧ v ≤ 6) then
        match S.computerTurn (fun i => ds.getD i 2) with
        | .ok (S1, _) => some S1
        | .error _ => none
      else none

/-- Run a list of operations from a state. -/
def Game.runOps : Game → List Op → Option Game
  | S, [] => some S
  | S, op :: ops => (S.applyOp op).bind (fun S1 => Game.runOps S1 ops)

/-- A Python reference held by the manager facade's `StateManager`:
player 1, player 2, or the dedicated `computer_player` sentinel object. -/
inductive MRef where
  | p1
  | p2
  | computer
  deriving DecidableEq, Repr

/-- The state held by `StateManager` (`src/managers/state_manager.py`).
The computer participant is a first-class sentinel (`MRef.computer`)
whose points live in `computer_score`; `player1`/`player2` may be
unset before setup. -/
structure MState where
  player1 : Option Player
  player2 : Option Player
  current : Option MRef
  turnScore : Nat
  gameOver : Bool
  winner : Option MRef
  computerWon : Bool
  winningScore : Nat
  currentDifficulty : String
  computerScore : Nat
  deriving DecidableEq, Repr

/-- The display name of a manager-side reference (the sentinel player
is constructed as `Player("Computer")`). -/
def MState.nameOf (S : MState) : MRef → String
  | .p1 => (S.player1.getD (Player.initCore "Computer")).name
  | .p2 => (S.player2.getD (Player.initCore "Computer")).name
  | .computer => "Computer"

/-- `StateManager.switch_player`: nothing happens while player 1 is
unset; in two-player mode the current player alternates between the two
humans, in computer mode between player 1 and the computer sentinel
(any other current value is left alone). -/
def MState.switchPlayer (S : MState) : MState :=
  match S.player1 with
  | none => S
  | some _ =>
      match S.player2 with
      | some _ =>
          { S with current := some (if S.current = some MRef.p1 then MRef.p2 else MRef.p1) }
      | none =>
          if S.current = some MRef.p1 then { S with current := some MRef.computer }
          else if S.current = some MRef.computer then { S with current := some MRef.p1 }
          else S

/-- `MoveManager._end_turn`: switch the player unless the game ended. -/
def MoveManager.endTurn (S : MState) : MState :=
  if S.gameOver then S else S.switchPlayer

/-- `MoveManager._check_win_condition(player)`: compare the acting
participant's score (the `computer_score` for the sentinel) with the
winning score; on a win set `game_over`, and either `computer_won`
(winner stays `None`) or `winner`.  Returns whether the game ended. -/
def MoveManager.checkWinCondition (S : MState) (player : MRef) : MState × Bool :=
  let score := match player with
    | .computer => S.computerScore
    | .p1 => (S.player1.getD (Player.initCore "Computer")).score
    | .p2 => (S.player2.getD (Player.initCore "Computer")).score
  if S.winningScore ≤ score then
    match player with
    | .computer => ({ S with gameOver := true, computerWon := true, winner := none }, true)
    | r => ({ S with gameOver := true, winner := some r }, true)
  else (S, false)

/-- `MoveManager.roll_dice` (`src/managers/move_manager.py`), with the
die value injected: when the game is over or no one's turn it *returns
0 without raising*; otherwise the roll is recorded to the stats sink,
a 1 busts (zero the turn score, end the turn), and other values
accumulate. -/
def MoveManager.rollDice (S : MState) (v : Nat) : MState × Nat :=
  if S.gameOver = true ∨ S.current = none then (S, 0)
  else if v = 1 then (MoveManager.endTurn { S with turnScore := 0 }, v)
  else ({ S with turnScore := S.turnScore + v }, v)

/-- `MoveManager.hold`: when the game is over or no one's turn it
returns a message without raising.  Otherwise — with *no check that the
turn score is non-zero* — the turn score (possibly 0) is credited to
the acting participant, the turn score is zeroed, and either the win
condition fires or the turn passes.  (`StatsManager.record_turn` is a
`pass` statement, so no turn history exists on this side.) -/
def MoveManager.hold (S : MState) : MState × String :=
  if S.gameOver = true ∨ S.current = none then
    (S, "Cannot hold: game is over or not started.")
  else
    let scoreToAdd := S.turnScore
    let player := S.current.getD MRef.computer
    let S1 := match player with
      | .computer => { S with computerScore := S.computerScore + scoreToAdd }
      | .p1 => { S with player1 := S.player1.map (fun (p : Player) => { p with score := p.score + scoreToAdd }) }
      | .p2 => { S with player2 := S.player2.map (fun (p : Player) => { p with score := p.score + scoreToAdd }) }
    let S2 := { S1 with turnScore := 0 }
    let (S3, won) := MoveManager.checkWinCondition S2 player
    if won then (S3, S3.nameOf player ++ " wins!")
    else (MoveManager.endTurn S3,
          S3.nameOf player ++ " held " ++ toString scoreToAdd ++ " points.")

/-! ### State observers used to phrase the verified properties -/

/-- The banked score of the participant a god-class reference denotes
(the computer's points live in `_computer_score`). -/
def Game.refScore (S : Game) : Option PSlot → Nat
  | some pid => (S.playerAt pid).score
  | none => S.computerScore

/-- The display name of the participant a god-class reference denotes
(turn-history records label the computer `"Computer"`). -/
def Game.refName (S : Game) : Option PSlot → String
  | some pid => (S.playerAt pid).name
  | none => "Computer"

/-- The opponent's banked score: player 2's in two-player mode, the
computer's in computer mode. -/
def Game.opponentScore (S : Game) : Nat :=
  match S.player2 with
  | some p => p.score
  | none => S.computerScore

/-- Some participant has reached the winning score. -/
def Game.winningReached (S : Game) : Prop :=
  WINNING_SCORE ≤ S.player1.score ∨ WINNING_SCORE ≤ S.opponentScore

/-- The state invariant of the god-class engine away from cheat codes:
the game-over flag tracks the winning score exactly, a winner identity
(the `winner` reference or the `_computer_won` flag) is recorded iff
the game is over, and the current-player reference always denotes one
of the two active participants of the session's mode. -/
def Game.Inv (S : Game) : Prop :=
  (S.gameOver = true ↔ S.winningReached) ∧
  ((S.winner.isSome ∨ S.computerWon = true) ↔ S.gameOver = true) ∧
  (S.player2.isSome → S.current ≠ none) ∧
  (S.player2 = none → S.current ≠ some PSlot.two)

/-! ### Concrete states and traces referenced by individual claims -/

/-- A fresh two-player game, Alice vs Bob. -/
def twoPlayerStart : Game :=
  Game.init (Player.initGod "Alice") (some (Player.initGod "Bob"))

/-- A fresh computer-mode game for Alice. -/
def computerStart : Game :=
  Game.init (Player.initGod "Alice") none

/-- The state of `twoPlayerStart` after the roll sequence 3, 4, 1. -/
def rollScenarioEnd : Game :=
  { twoPlayerStart with current := some PSlot.two, diceHistory := [3, 4, 1] }

/-- A short computer-mode session: Alice banks a 2, then the computer
(whose turn is `current = None`) banks a 5.  Reaches a state whose
computer score is 5. -/
def computerSessionTrace : List Op :=
  [.roll 2, .hold, .roll 5, .hold]

/-- The state reached by `computerSessionTrace`. -/
def computerSessionEnd : Game :=
  { computerStart with
      player1 := { name := "Alice", score := 2 }, computerScore := 5,
      turnHistory := [{ player := "Alice", turnScore := 2, totalScore := 2 },
                      { player := "Computer", turnScore := 5, totalScore := 5 }],
      diceHistory := [2, 5] }

/-- The record `Game.save_game` writes for `computerSessionEnd`: every
listed field of the state is present, but the `SaveData` shape (like
the Python dict) has no field at all for the computer's score 5 or the
computer-won flag. -/
def computerSessionRecord : SaveData :=
  { player1Name := "Alice", player1Score := 2, player2 := none,
    currentPlayerName := "Alice", turnScore := 0, gameOver := false,
    winnerName := none, currentDifficulty := "casual",
    turnHistory := [{ player := "Alice", turnScore := 2, totalScore := 2 },
                    { player := "Computer", turnScore := 5, totalScore := 5 }],
    diceHistory := [2, 5] }

/-- The state reached from a fresh computer-mode game by applying the
`BONUS15` cheat seven times: 105 points, game not over. -/
def bonusCheatedEnd : Game :=
  { computerStart with player1 := { name := "Alice", score := 105 } }

/-- Two-player state about to win: Alice at 94 with 8 on the turn. -/
def holdWinStart : Game :=
  { twoPlayerStart with player1 := { name := "Alice", score := 94 }, turnScore := 8 }

/-- The state `Game.hold` produces from `holdWinStart`: note the turn
score is still 8. -/
def holdWinEnd : Game :=
  { holdWinStart with
      player1 := { name := "Alice", score := 102 }, gameOver := true,
      winner := some PSlot.one,
      turnHistory := [{ player := "Alice", turnScore := 8, totalScore := 102 }] }

/-- Computer-mode state, computer's turn, player 1 already past the
winning score (reachable through bonus cheats). -/
def cheatTargetPast100 : Game :=
  { computerStart with current := none, player1 := { name := "Alice", score := 150 } }

/-- Computer-mode state, computer's turn, difficulty `"noob"`. -/
def noobComputerTurnStart : Game :=
  { computerStart with current := none, currentDifficulty := "noob" }

/-- Manager-facade state: Alice vs Bob, Alice's turn, turn score 0. -/
def mHoldZeroStart : MState :=
  { player1 := some { name := "Alice", score := 0 },
    player2 := some { name := "Bob", score := 0 },
    current := some MRef.p1, turnScore := 0, gameOver := false,
    winner := none, computerWon := false, winningScore := 15,
    currentDifficulty := "casual", computerScore := 0 }

/-- What `MoveManager.hold` makes of `mHoldZeroStart`: the zero hold is
accepted and the turn passes to Bob. -/
def mHoldZeroEnd : MState :=
  { mHoldZeroStart with current := some MRef.p2 }

/-- Manager-facade state after Alice has won (game over). -/
def mFinishedState : MState :=
  { player1 := some { name := "Alice", score := 15 }, player2 := none,
    current := some MRef.p1, turnScore := 3, gameOver := true,
    winner := some MRef.p1, computerWon := false, winningScore := 15,
    currentDifficulty := "casual", computerScore := 0 }

/-- Computer-mode state, computer's turn, player 1 at 40 points. -/
def cheatTargetAt40 : Game :=
  { computerStart with current := none, player1 := { name := "Alice", score := 40 } }

/-!
## Shared lemmas about `Game._end_turn`
-/

theorem Game.endTurn_player1 (S : Game) : S.endTurn.player1 = S.player1 := by
  unfold Game.endTurn; cases h : S.player2 <;> dsimp <;> split <;> rfl

theorem Game.endTurn_player2 (S : Game) : S.endTurn.player2 = S.player2 := by
  unfold Game.endTurn; cases h : S.player2 <;> simp_all <;> split <;> rfl

theorem Game.endTurn_turnScore (S : Game) : S.endTurn.turnScore = 0 := by
  unfold Game.endTurn; cases h : S.player2 <;> dsimp <;> split <;> rfl

theorem Game.endTurn_gameOver (S : Game) : S.endTurn.gameOver = S.gameOver := by
  unfold Game.endTurn; cases h : S.player2 <;> dsimp <;> split <;> rfl

theorem Game.endTurn_winner (S : Game) : S.endTurn.winner = S.winner := by
  unfold Game.endTurn; cases h : S.player2 <;> dsimp <;> split <;> rfl

theorem Game.endTurn_computerScore (S : Game) : S.endTurn.computerScore = S.computerScore := by
  unfold Game.endTurn; cases h : S.player2 <;> dsimp <;> split <;> rfl

theorem Game.endTurn_computerWon (S : Game) : S.endTurn.computerWon = S.computerWon := by
  unfold Game.endTurn; cases h : S.player2 <;> dsimp <;> split <;> rfl

theorem Game.endTurn_currentDifficulty (S : Game) :
    S.endTurn.currentDifficulty = S.currentDifficulty := by
  unfold Game.endTurn; cases h : S.player2 <;> dsimp <;> split <;> rfl

theorem Game.endTurn_turnHistory (S : Game) : S.endTurn.turnHistory = S.turnHistory := by
  unfold Game.endTurn; cases h : S.player2 <;> dsimp <;> split <;> rfl

theorem Game.endTurn_diceHistory (S : Game) : S.endTurn.diceHistory = S.diceHistory := by
  unfold Game.endTurn; cases h : S.player2 <;> dsimp <;> split <;> rfl

theorem Game.endTurn_current_ne (S : Game) : S.endTurn.current ≠ S.current := by
  unfold Game.endTurn
  cases h : S.player2 <;> by_cases h1 : S.current = some PSlot.one <;> simp [h, h1]
  · exact fun hc => h1 hc.symm
  · exact fun hc => h1 hc.symm

theorem Game.endTurn_current_not_none (S : Game) (h : S.player2.isSome) :
    S.endTurn.current ≠ none := by
  unfold Game.endTurn
  obtain ⟨p, hp⟩ := Option.isSome_iff_exists.mp h
  simp [hp]

theorem Game.endTurn_current_not_two (S : Game) (h : S.player2 = none) :
    S.endTurn.current ≠ some PSlot.two := by
  unfold Game.endTurn
  by_cases h1 : S.current = some PSlot.one <;> simp [h, h1]

/-!
## C10 — player construction never fails on a bad name
-/

/-- C10: Player construction never fails on any input string: the
god-class `Player.__init__` stores the name verbatim (including the
empty string), the core `Player.__init__` silently substitutes the
default `"Player"` for an empty or whitespace-only input and trims all
others, and only the `name` setter rejects a blank name with an error
(storing the trimmed name otherwise). -/
theorem player_name_rules :
    (∀ s : String, (Player.initGod s).name = s) ∧
    (∀ s : String, pyStrip s = "" → (Player.initCore s).name = "Player") ∧
    (∀ s : String, pyStrip s ≠ "" → (Player.initCore s).name = pyStrip s) ∧
    (∀ (p : Player) (s : String), pyStrip s = "" →
        p.setName s = .error "Player name cannot be empty") ∧
    (∀ (p : Player) (s : String), pyStrip s ≠ "" →
        p.setName s = .ok { p with name := pyStrip s }) := by
  refine ⟨fun s => rfl, fun s h => ?_, fun s h => ?_, fun p s h => ?_, fun p s h => ?_⟩ <;>
    simp [Player.initCore, Player.setName, h]

/-- Witness for C10 at the concrete names `""`, `"  "` and `" Bob "`. -/
theorem player_name_rules_witness :
    (Player.initGod "").name = "" ∧
    (Player.initCore "  ").name = "Player" ∧
    (Player.initCore " Bob ").name = "Bob" ∧
    Player.setName (Player.initGod "X") "  " = .error "Player name cannot be empty" ∧
    Player.setName (Player.initGod "X") " Bob " = .ok { name := "Bob", score := 0 } := by
  refine ⟨player_name_rules.1 "", player_name_rules.2.1 "  " (by decide), ?_, ?_, ?_⟩
  · exact (player_name_rules.2.2.1 " Bob " (by decide)).trans (by decide)
  · exact player_name_rules.2.2.2.1 _ "  " (by decide)
  · exact (player_name_rules.2.2.2.2 _ " Bob " (by decide)).trans (by decide)

/-!
## C3 — Hold with a zero turn total
-/

/-- C3 (amended): in the god-class `Game`, calling `hold` on a
non-game-over state with turn score 0 raises the zero-turn-score error;
the guard precedes every mutation in the source, so the state is left
untouched.  (The manager facade's `MoveManager.hold` has no such check;
see the counterexample.) -/
theorem hold_zero_turn_rejected (S : Game)
    (hov : S.gameOver = false) (hts : S.turnScore = 0) :
    S.hold = .error .zeroTurnScore := by
  simp [Game.hold, hov, hts]

/-- Witness for C3's amended theorem on a fresh two-player game. -/
theorem hold_zero_turn_rejected_witness :
    Game.hold twoPlayerStart = .error .zeroTurnScore :=
  hold_zero_turn_rejected twoPlayerStart rfl rfl

/-- Counterexample to C3 as stated: the manager facade's
`MoveManager.hold`, called on a non-game-over state with turn score 0,
does not fail at all — it returns an ordinary held-points message and
switches the current player from Alice to Bob, so the state is not
left unchanged. -/
theorem manager_hold_zero_accepted :
    MoveManager.hold mHoldZeroStart = (mHoldZeroEnd, "Alice held 0 points.") ∧
    mHoldZeroStart.gameOver = false ∧ mHoldZeroStart.turnScore = 0 ∧
    mHoldZeroEnd.current ≠ mHoldZeroStart.current := by decide

/-!
## C8 — moves after game over
-/

/-- Counterexample to C8 as stated: on a game-over state the manager
facade's `MoveManager.roll_dice` returns the sentinel value 0 and
`MoveManager.hold` returns a message string, both through the ordinary
return channel of the functions (their types have no error channel
because the Python never raises here), so neither fails with a typed
`GameOverError`. -/
theorem manager_game_over_silent :
    mFinishedState.gameOver = true ∧
    MoveManager.rollDice mFinishedState 5 = (mFinishedState, 0) ∧
    MoveManager.hold mFinishedState =
      (mFinishedState, "Cannot hold: game is over or not started.") := by
  decide

/-- C8 (amended): in the god-class `Game`, `roll_dice` and `hold` on a
game-over state raise `GameOverError` before any mutation; the manager
facade's `MoveManager` mutates nothing either, but instead of a typed
failure returns the sentinel 0 (for a roll) or a message string (for a
hold). -/
theorem game_over_rejects_moves :
    (∀ (S : Game) (v : Nat), S.gameOver = true → S.rollDice v = .error .gameOverErr) ∧
    (∀ S : Game, S.gameOver = true → S.hold = .error .gameOverErr) ∧
    (∀ (M : MState) (v : Nat), M.gameOver = true → MoveManager.rollDice M v = (M, 0)) ∧
    (∀ M : MState, M.gameOver = true →
        MoveManager.hold M = (M, "Cannot hold: game is over or not started.")) := by
  refine ⟨fun S v h => ?_, fun S h => ?_, fun M v h => ?_, fun M h => ?_⟩ <;>
    simp [Game.rollDice, Game.hold, MoveManager.rollDice, MoveManager.hold, h]

/-- Witness for C8's amended theorem on concrete finished states. -/
theorem game_over_rejects_moves_witness :
    Game.rollDice holdWinEnd 5 = .error .gameOverErr ∧
    Game.hold holdWinEnd = .error .gameOverErr ∧
    MoveManager.rollDice mFinishedState 5 = (mFinishedState, 0) ∧
    MoveManager.hold mFinishedState =
      (mFinishedState, "Cannot hold: game is over or not started.") :=
  ⟨game_over_rejects_moves.1 holdWinEnd 5 (by decide),
   game_over_rejects_moves.2.1 holdWinEnd (by decide),
   game_over_rejects_moves.2.2.1 mFinishedState 5 (by decide),
   game_over_rejects_moves.2.2.2 mFinishedState (by decide)⟩

/-!
## C9 — cheats while the computer is the current player
-/

/-- Counterexample to C9 as stated: with `current_player = None` in
computer mode but player 1 already past the winning score, the `WIN`
cheat does not raise player 1's score to the winning score and fix a
winner — `add_to_score` rejects the negative delta and the call raises
`ValueError` instead. -/
theorem win_cheat_rejects_high_score :
    cheatTargetPast100.player2 = none ∧ cheatTargetPast100.current = none ∧
    Game.applyCheat cheatTargetPast100 "WIN" = .error .negativePoints ∧
    Game.inputCheatCode cheatTargetPast100 "WIN" = .error .negativePoints := by decide

/-- C9 (amended): in the god-class `Game` in computer mode, when it is
the computer's turn (`current_player = None`) and player 1's score does
not exceed the winning score, `apply_cheat` (and `input_cheat_code`,
which has the same state effect) applies `WIN` to player 1: player 1's
score becomes exactly the winning score, the game ends, and player 1 is
fixed as winner even though the computer is the acting participant. -/
theorem win_cheat_credits_player1 (S : Game)
    (h2 : S.player2 = none) (hc : S.current = none)
    (hle : S.player1.score ≤ WINNING_SCORE) :
    S.applyCheat "WIN" =
      .ok ({ S with player1 := { S.player1 with score := WINNING_SCORE },
                    gameOver := true, winner := some PSlot.one }, true) ∧
    S.inputCheatCode "WIN" = S.applyCheat "WIN" := by
  have hup : pyUpper (pyStrip "WIN") = "WIN" := by decide
  constructor
  · simp only [Game.applyCheat, hup, hc]
    have hnn : ¬((WINNING_SCORE : Int) - (S.player1.score : Int) < 0) := by
      simp only [not_lt, sub_nonneg]; exact_mod_cast hle
    simp only [Game.playerAt, Game.setPlayerAt, Player.addToScore, hnn, if_neg, if_true,
      Option.getD_none, if_pos, reduceIte]
    simp [hc]
    omega
  · have hne : pyStrip "WIN" ≠ "" := by decide
    simp [Game.inputCheatCode, hne]

/-- Witness for C9's amended theorem with player 1 at 40 points. -/
theorem win_cheat_credits_player1_witness :
    Game.applyCheat cheatTargetAt40 "WIN" =
      .ok ({ cheatTargetAt40 with
               player1 := { cheatTargetAt40.player1 with score := WINNING_SCORE },
               gameOver := true, winner := some PSlot.one }, true) ∧
    Game.inputCheatCode cheatTargetAt40 "WIN" = Game.applyCheat cheatTargetAt40 "WIN" :=
  win_cheat_credits_player1 cheatTargetAt40 rfl rfl (by decide)

/-!
## C6 — Hold with a positive turn total
-/

/-- Counterexample to C6 as stated: holding at score 94 with turn total
8 wins the game (score 102, winner fixed) but does **not** reset the
turn total to 0 — on the winning branch the god class skips
`_end_turn`, so `turnScore` remains 8. -/
theorem hold_win_keeps_turn_score :
    holdWinStart.gameOver = false ∧ holdWinStart.turnScore = 8 ∧
    holdWinStart.player1.score = 94 ∧
    Game.hold holdWinStart = .ok holdWinEnd ∧
    holdWinEnd.player1.score = 102 ∧ holdWinEnd.gameOver = true ∧
    holdWinEnd.winner = some PSlot.one ∧ holdWinEnd.turnScore ≠ 0 := by decide

/-- C6 (amended): for every non-game-over state with a positive turn
total, `hold` succeeds, credits the turn total to the current
participant's score, and appends a matching turn-history record; if the
updated score reaches the winning score the game transitions to game
over with the winner fixed to that participant (`_computer_won` when
the computer is acting) while the turn total keeps its pre-hold value,
and otherwise the turn total is reset to 0 and the current player
switches. -/
theorem hold_spec (S : Game)
    (hov : S.gameOver = false) (hts : 0 < S.turnScore)
    (hp2 : S.current = some PSlot.two → S.player2.isSome) :
    (∃ S1, S.hold = .ok S1) ∧
    (∀ S1, S.hold = .ok S1 →
      S1.turnHistory = S.turnHistory ++
        [{ player := S.refName S.current, turnScore := S.turnScore,
           totalScore := S.refScore S.current + S.turnScore }] ∧
      S1.refScore S.current = S.refScore S.current + S.turnScore ∧
      (WINNING_SCORE ≤ S.refScore S.current + S.turnScore →
        S1.gameOver = true ∧ S1.turnScore = S.turnScore ∧
        (∀ pid, S.current = some pid → S1.winner = some pid) ∧
        (S.current = none → S1.computerWon = true)) ∧
      (S.refScore S.current + S.turnScore < WINNING_SCORE →
        S1.gameOver = false ∧ S1.turnScore = 0 ∧ S1.current ≠ S.current)) := by
  have hne : S.turnScore ≠ 0 := by omega
  rcases hcur : S.current with _ | pid
  · -- computer's turn
    simp only [Game.hold, hov, hne, hcur, Bool.false_eq_true, if_false, reduceIte]
    by_cases hw : WINNING_SCORE ≤ S.computerScore + S.turnScore
    · simp only [hw, if_pos, reduceIte]
      refine ⟨⟨_, rfl⟩, fun S1 h1 => ?_⟩
      injection h1 with h1; subst h1
      simp [Game.refScore, Game.refName, hcur, hw]
    · simp only [hw, if_neg, reduceIte]
      refine ⟨⟨_, rfl⟩, fun S1 h1 => ?_⟩
      injection h1 with h1; subst h1
      refine ⟨?_, ?_, ?_, ?_⟩
      · simp [Game.refScore, Game.refName, hcur, Game.endTurn_turnHistory]
      · simp [Game.refScore, hcur, Game.endTurn_computerScore]
      · intro hw2; simp only [Game.refScore] at hw2; omega
      · intro _
        refine ⟨by simp [Game.endTurn_gameOver, hov], Game.endTurn_turnScore _, ?_⟩
        exact fun hcc => Game.endTurn_current_ne _ (by simpa using hcc)
  · -- a human player's turn
    cases pid with
    | one =>
      simp only [Game.hold, hov, hne, hcur, Bool.false_eq_true, if_false, reduceIte,
        Game.playerAt, Game.setPlayerAt]
      by_cases hw : WINNING_SCORE ≤ S.player1.score + S.turnScore
      · simp only [hw, if_pos, reduceIte]
        refine ⟨⟨_, rfl⟩, fun S1 h1 => ?_⟩
        injection h1 with h1; subst h1
        simp [Game.refScore, Game.refName, hcur, hw, Game.playerAt]
      · simp only [hw, if_neg, reduceIte]
        refine ⟨⟨_, rfl⟩, fun S1 h1 => ?_⟩
        injection h1 with h1; subst h1
        refine ⟨?_, ?_, ?_, ?_⟩
        · simp [Game.refScore, Game.refName, hcur, Game.endTurn_turnHistory, Game.playerAt]
        · simp only [Game.refScore, hcur, Game.playerAt]
          rw [Game.endTurn_player1]
        · intro hw2; simp only [Game.refScore, hcur, Game.playerAt] at hw2; omega
        · intro _
          refine ⟨by simp [Game.endTurn_gameOver, hov], Game.endTurn_turnScore _, ?_⟩
          exact fun hcc => Game.endTurn_current_ne _ (by simpa using hcc)
    | two =>
      obtain ⟨p2, hpl⟩ := Option.isSome_iff_exists.mp (hp2 hcur)
      simp only [Game.hold, hov, hne, hcur, hpl, Bool.false_eq_true, if_false, reduceIte,
        Game.playerAt, Game.setPlayerAt, Option.getD_some]
      by_cases hw : WINNING_SCORE ≤ p2.score + S.turnScore
      · simp only [hw, if_pos, reduceIte]
        refine ⟨⟨_, rfl⟩, fun S1 h1 => ?_⟩
        injection h1 with h1; subst h1
        simp [Game.refScore, Game.refName, hcur, hw, Game.playerAt, hpl]
      · simp only [hw, if_neg, reduceIte]
        refine ⟨⟨_, rfl⟩, fun S1 h1 => ?_⟩
        injection h1 with h1; subst h1
        refine ⟨?_, ?_, ?_, ?_⟩
        · simp [Game.refScore, Game.refName, hcur, Game.endTurn_turnHistory, Game.playerAt, hpl]
        · simp only [Game.refScore, hcur, Game.playerAt]
          rw [Game.endTurn_player2]
          simp [hpl]
        · intro hw2; simp only [Game.refScore, hcur, Game.playerAt, hpl] at hw2
          simp only [Option.getD_some] at hw2; omega
        · intro _
          refine ⟨by simp [Game.endTurn_gameOver, hov], Game.endTurn_turnScore _, ?_⟩
          exact fun hcc => Game.endTurn_current_ne _ (by simpa using hcc)

/-!
## C4 — Roll semantics
-/

/-- C4: for every non-game-over state, `roll_dice` succeeds on the
drawn die value `v`, appends `v` to the roll history, returns `v`, and
leaves all scores and the mode untouched; on a 1 it zeroes the turn
total and switches the current player, otherwise it adds `v` to the
turn total and keeps the current player.  A fresh game fed the roll
sequence 3, 4, 1 has turn totals 3, then 7, then 0 with the turn passed
to player 2 and roll history `[3, 4, 1]`. -/
theorem roll_spec :
    (∀ (S : Game) (v : Nat), S.gameOver = false → ∃ S1, S.rollDice v = .ok (S1, v)) ∧
    (∀ (S : Game) (v : Nat) (S1 : Game) (r : Nat), S.gameOver = false →
        S.rollDice v = .ok (S1, r) →
        r = v ∧ S1.diceHistory = S.diceHistory ++ [v] ∧
        S1.player1 = S.player1 ∧ S1.player2 = S.player2 ∧
        S1.computerScore = S.computerScore ∧ S1.gameOver = false ∧
        (v = 1 → S1.turnScore = 0 ∧ S1.current ≠ S.current) ∧
        (v ≠ 1 → S1.turnScore = S.turnScore + v ∧ S1.current = S.current)) ∧
    ((Game.runOps twoPlayerStart [.roll 3]).map Game.turnScore = some 3 ∧
     (Game.runOps twoPlayerStart [.roll 3, .roll 4]).map Game.turnScore = some 7 ∧
     Game.runOps twoPlayerStart [.roll 3, .roll 4, .roll 1] = some rollScenarioEnd ∧
     rollScenarioEnd.turnScore = 0 ∧ rollScenarioEnd.current = some PSlot.two ∧
     rollScenarioEnd.diceHistory = [3, 4, 1]) := by
  refine ⟨fun S v hov => ?_, fun S v S1 r hov h => ?_, by decide⟩
  · by_cases h1 : v = 1 <;> simp [Game.rollDice, hov, h1]
  · rw [Game.rollDice] at h
    simp only [hov, Bool.false_eq_true, if_false, reduceIte] at h
    by_cases h1 : v = 1
    · subst h1
      simp only [if_pos, reduceIte] at h
      injection h with h
      injection h with ha hb
      subst ha; subst hb
      refine ⟨rfl, by simp [Game.endTurn_diceHistory], Game.endTurn_player1 _,
        Game.endTurn_player2 _, Game.endTurn_computerScore _,
        by simp [Game.endTurn_gameOver, hov], fun _ => ⟨Game.endTurn_turnScore _, ?_⟩,
        fun hh => absurd rfl hh⟩
      exact fun hcc => Game.endTurn_current_ne _ (by simpa using hcc)
    · simp only [h1, if_neg, reduceIte] at h
      injection h with h
      injection h with ha hb
      subst ha; subst hb
      exact ⟨rfl, rfl, rfl, rfl, rfl, rfl, fun hh => absurd hh h1, fun _ => ⟨rfl, rfl⟩⟩

/-- Witness for C4 rolling a 3 in a fresh two-player game. -/
theorem roll_spec_witness :
    twoPlayerStart.gameOver = false ∧
    ({ twoPlayerStart with turnScore := 3, diceHistory := [3] } : Game).turnScore
        = twoPlayerStart.turnScore + 3 ∧
    ({ twoPlayerStart with turnScore := 3, diceHistory := [3] } : Game).current
        = twoPlayerStart.current := by
  have h := roll_spec.2.1 twoPlayerStart 3
    { twoPlayerStart with turnScore := 3, diceHistory := [3] } 3 rfl (by decide)
  exact ⟨rfl, (h.2.2.2.2.2.2.2 (by decide)).1, (h.2.2.2.2.2.2.2 (by decide)).2⟩

/-- Witness for C6's amended theorem at the 94-point, turn-total-8
scenario state. -/
theorem hold_spec_witness :
    Game.hold holdWinStart = .ok holdWinEnd ∧
    holdWinEnd.gameOver = true ∧ holdWinEnd.turnScore = holdWinStart.turnScore ∧
    holdWinEnd.winner = some PSlot.one := by
  have h := (hold_spec holdWinStart rfl (by decide) (by decide)).2 holdWinEnd (by decide)
  refine ⟨by decide, ?_, ?_, ?_⟩
  · exact (h.2.2.1 (by decide)).1
  · exact (h.2.2.1 (by decide)).2.1
  · exact (h.2.2.1 (by decide)).2.2.1 PSlot.one rfl


/-!
## C5 — the AI difficulty roll
-/

theorem DiceDifficulty.rollLoop_used_le (ds : List Nat) (total : Nat) :
    (DiceDifficulty.rollLoop ds total).2 ≤ ds.length := by
  induction ds generalizing total with
  | nil => simp [DiceDifficulty.rollLoop]
  | cons v ds ih =>
      by_cases h : v = 1 <;> simp [DiceDifficulty.rollLoop, h]
      exact ih (total + v)

theorem DiceDifficulty.rollLoop_no_one (ds : List Nat) (total : Nat) (h : 1 ∉ ds) :
    DiceDifficulty.rollLoop ds total = (total + ds.sum, ds.length) := by
  induction ds generalizing total with
  | nil => simp [DiceDifficulty.rollLoop]
  | cons v ds ih =>
      have hv : v ≠ 1 := fun hv => h (hv ▸ List.mem_cons_self v ds)
      have hds : 1 ∉ ds := fun hm => h (List.mem_cons_of_mem v hm)
      simp [DiceDifficulty.rollLoop, hv, ih _ hds]
      omega

theorem DiceDifficulty.rollLoop_map_bust (cap : Nat) :
    ∀ (j : Nat) (draws : Nat → Nat) (total : Nat), j < cap → draws j = 1 →
      (∀ k, k < j → draws k ≠ 1) →
      DiceDifficulty.rollLoop ((List.range cap).map draws) total = (1, j + 1) := by
  induction cap with
  | zero => intro j _ _ hj; omega
  | succ n ih =>
      intro j draws total hj h1 hk
      rw [List.range_succ_eq_map, List.map_cons, List.map_map]
      cases j with
      | zero => simp [DiceDifficulty.rollLoop, h1]
      | succ j =>
          have h0 : draws 0 ≠ 1 := hk 0 (Nat.succ_pos j)
          simp only [DiceDifficulty.rollLoop, h0, if_neg, reduceIte]
          rw [ih j (draws ∘ Nat.succ) (total + draws 0) (by omega) h1
            (fun k hkk => hk (k + 1) (by omega))]

theorem nat_list_sum_bounds (L : List Nat) (h : ∀ x ∈ L, 2 ≤ x ∧ x ≤ 6) :
    2 * L.length ≤ L.sum ∧ L.sum ≤ 6 * L.length := by
  induction L with
  | nil => simp
  | cons v L ih =>
      have hv := h v (List.mem_cons_self v L)
      have hL := ih (fun x hx => h x (List.mem_cons_of_mem v hx))
      simp only [List.sum_cons, List.length_cons]
      omega

theorem rollCountOf_ge_two (m : String) (c : Nat) (h : rollCountOf m = some c) : 2 ≤ c := by
  unfold rollCountOf at h
  split at h <;> simp_all <;> omega


/-- C5: `DiceDifficulty.roll` fails with `UnknownDifficultyError` for
every unrecognized tier name; for every recognized tier it performs at
most `cap` draws, with caps noob=2, casual=4, challenger=6, veteran=8,
elite=10, legendary=12; it returns 1 the moment the first drawn value
equals 1 (having used exactly that many draws), and otherwise returns
the sum of all `cap` drawn values, which lies in 2..6*cap. -/
theorem ai_roll_spec :
    (∀ (mode : String) (draws : Nat → Nat),
        rollCountOf (pyLower (pyStrip mode)) = none →
        DiceDifficulty.roll mode draws = .error .unknownMode) ∧
    (rollCountOf "noob" = some 2 ∧ rollCountOf "casual" = some 4 ∧
     rollCountOf "challenger" = some 6 ∧ rollCountOf "veteran" = some 8 ∧
     rollCountOf "elite" = some 10 ∧ rollCountOf "legendary" = some 12) ∧
    (∀ (mode : String) (draws : Nat → Nat) (cap r used : Nat),
        rollCountOf (pyLower (pyStrip mode)) = some cap →
        (∀ i, 1 ≤ draws i ∧ draws i ≤ 6) →
        DiceDifficulty.roll mode draws = .ok (r, used) →
        used ≤ cap ∧
        (∀ j, j < cap → draws j = 1 → (∀ k, k < j → draws k ≠ 1) →
            r = 1 ∧ used = j + 1) ∧
        ((∀ k, k < cap → draws k ≠ 1) →
            used = cap ∧ r = ((List.range cap).map draws).sum ∧ 2 ≤ r ∧ r ≤ 6 * cap)) := by
  refine ⟨fun mode draws h => by simp [DiceDifficulty.roll, h],
    ⟨rfl, rfl, rfl, rfl, rfl, rfl⟩, fun mode draws cap r used hcap hdr hroll => ?_⟩
  simp only [DiceDifficulty.roll, hcap] at hroll
  injection hroll with hroll
  refine ⟨?_, fun j hj h1 hk => ?_, fun hno => ?_⟩
  · have := DiceDifficulty.rollLoop_used_le ((List.range cap).map draws) 0
    rw [hroll] at this
    simpa using this
  · have hb := DiceDifficulty.rollLoop_map_bust cap j draws 0 hj h1 hk
    rw [hroll] at hb
    injection hb with hb1 hb2
    exact ⟨hb1, hb2⟩
  · have hmem : (1 : Nat) ∉ (List.range cap).map draws := by
      intro hm
      obtain ⟨k, hk, hk1⟩ := List.mem_map.mp hm
      exact hno k (List.mem_range.mp hk) hk1
    have hn := DiceDifficulty.rollLoop_no_one ((List.range cap).map draws) 0 hmem
    rw [hroll] at hn
    have hr : r = ((List.range cap).map draws).sum := by
      have := congrArg Prod.fst hn; simpa using this
    have hu : used = cap := by
      have := congrArg Prod.snd hn; simpa using this
    have hbounds := nat_list_sum_bounds ((List.range cap).map draws) ?_
    · obtain ⟨hb1, hb2⟩ := hbounds
      have hlen : ((List.range cap).map draws).length = cap := by simp
      rw [hlen] at hb1 hb2
      have hcap2 : 2 ≤ cap := rollCountOf_ge_two _ _ hcap
      refine ⟨hu, hr, ?_, ?_⟩ <;> rw [hr] <;> omega
    · intro x hx
      obtain ⟨k, hk, rfl⟩ := List.mem_map.mp hx
      have := hdr k
      have hne := hno k (List.mem_range.mp hk)
      omega

/-- Witness for C5: tier `"noob"` with every draw equal to 3 makes
exactly 2 draws and returns 6. -/
theorem ai_roll_spec_witness :
    DiceDifficulty.roll "noob" (fun _ => 3) = .ok (6, 2) := by
  obtain ⟨-, -, h4⟩ := ai_roll_spec.2.2 "noob" (fun _ => 3) 2 6 2 (by decide)
    (fun i => ⟨by norm_num, by norm_num⟩) (by decide)
  rfl


/-!
## C7 — the computer turn
-/

theorem first_one_split (L : List Nat) (h : 1 ∈ L) :
    ∃ pre rest, L = pre ++ 1 :: rest ∧ 1 ∉ pre := by
  induction L with
  | nil => cases h
  | cons v ds ih =>
      by_cases hv : v = 1
      · exact ⟨[], ds, by simp [hv], by simp⟩
      · have hm : 1 ∈ ds := by
          rcases List.mem_cons.mp h with h1 | h2
          · exact absurd h1.symm hv
          · exact h2
        obtain ⟨pre, rest, he, hn⟩ := ih hm
        refine ⟨v :: pre, rest, by rw [List.cons_append, he], ?_⟩
        intro hc
        rcases List.mem_cons.mp hc with h1 | h2
        · exact hv h1.symm
        · exact hn h2

theorem Game.computerLoop_no_one (ds : List Nat) (S : Game) (acc : List Nat) (h : 1 ∉ ds) :
    Game.computerLoop ds S acc =
      ({ S with diceHistory := S.diceHistory ++ ds,
                turnScore := S.turnScore + ds.sum }, acc ++ ds) := by
  induction ds generalizing S acc with
  | nil => simp [Game.computerLoop]
  | cons v ds ih =>
      have hv : v ≠ 1 := fun hv => h (hv ▸ List.mem_cons_self v ds)
      have hds : 1 ∉ ds := fun hm => h (List.mem_cons_of_mem v hm)
      simp only [Game.computerLoop, hv, if_neg, reduceIte]
      rw [ih _ _ hds]
      simp
      omega

theorem Game.computerLoop_bust (pre rest : List Nat) (S : Game) (acc : List Nat)
    (h : 1 ∉ pre) :
    Game.computerLoop (pre ++ 1 :: rest) S acc =
      (Game.endTurn { S with turnScore := 0, diceHistory := S.diceHistory ++ pre ++ [1] },
       acc ++ pre ++ [1]) := by
  induction pre generalizing S acc with
  | nil =>
      simp [Game.computerLoop]
  | cons v pre ih =>
      have hv : v ≠ 1 := fun hv => h (hv ▸ List.mem_cons_self v pre)
      have hpre : 1 ∉ pre := fun hm => h (List.mem_cons_of_mem v hm)
      simp only [List.cons_append, Game.computerLoop, hv, if_neg, reduceIte, List.append_eq]
      rw [ih _ _ hpre]
      simp

theorem Game.endTurn_comp_none (S : Game) (h2 : S.player2 = none) (hc : S.current = none) :
    S.endTurn.current = some PSlot.one := by
  unfold Game.endTurn; simp [h2, hc]

theorem rollCap_pos (m : String) : 1 ≤ (rollCountOf m).getD 4 := by
  cases h : rollCountOf m with
  | none => simp
  | some c => have := rollCountOf_ge_two m c h; simpa using by omega

/-- C7: in computer mode, `computer_turn` invokes the AI up to the
configured difficulty's roll cap and returns every roll produced during
the turn, in order (all appended to the roll history); if a drawn value
is 1 it stops immediately with turn total 0 and ends the turn without
calling `hold` (computer score and turn history untouched, turn passed
to player 1), and if the cap is exhausted without a 1 it banks the
accumulated total via `hold` (computer score increased by the sum, turn
record appended).  At difficulty `"noob"` with an injected roll source
yielding 1, it returns `[1]` with turn total 0 and no hold. -/
theorem computer_turn_spec :
    (∀ (S : Game) (draws : Nat → Nat),
      S.player2 = none → S.gameOver = false → S.current = none → S.turnScore = 0 →
      (∀ i, 1 ≤ draws i ∧ draws i ≤ 6) →
      (∃ S1 rolls, S.computerTurn draws = .ok (S1, rolls)) ∧
    (∀ S1 rolls, S.computerTurn draws = .ok (S1, rolls) →
      rolls.length ≤ (rollCountOf (pyLower S.currentDifficulty)).getD 4 ∧
      rolls = (List.range rolls.length).map draws ∧
      S1.diceHistory = S.diceHistory ++ rolls ∧
      (1 ∈ rolls →
        rolls.getLast? = some 1 ∧ S1.turnScore = 0 ∧
        S1.computerScore = S.computerScore ∧ S1.turnHistory = S.turnHistory ∧
        S1.current = some PSlot.one ∧ S1.gameOver = false) ∧
      (1 ∉ rolls →
        rolls.length = (rollCountOf (pyLower S.currentDifficulty)).getD 4 ∧
        S1.turnHistory = S.turnHistory ++
          [{ player := "Computer", turnScore := rolls.sum,
             totalScore := S.computerScore + rolls.sum }] ∧
        S1.computerScore = S.computerScore + rolls.sum))) ∧
    (Game.computerTurn noobComputerTurnStart (fun _ => 1) =
       .ok ({ noobComputerTurnStart with
                current := some PSlot.one, diceHistory := [1] }, [1]) ∧
     ({ noobComputerTurnStart with
          current := some PSlot.one, diceHistory := [1] } : Game).turnScore = 0 ∧
     ({ noobComputerTurnStart with
          current := some PSlot.one, diceHistory := [1] } : Game).turnHistory = []) := by
  refine ⟨fun S draws hmode hov hcur hts hdr => ?_, by decide, by decide, by decide⟩
  have hsome : S.player2.isSome = false := by rw [hmode]; rfl
  set cap := (rollCountOf (pyLower S.currentDifficulty)).getD 4 with hcap
  set L := (List.range cap).map draws with hLdef
  have hlen : L.length = cap := by rw [hLdef]; simp
  have hcap1 : 1 ≤ cap := rollCap_pos _
  by_cases hmem : 1 ∈ L
  · -- a drawn 1 stops the turn
    obtain ⟨pre, rest, hsplit, hpre⟩ := first_one_split L hmem
    have hloop := Game.computerLoop_bust pre rest S [] hpre
    have hleL : pre.length + 1 ≤ cap := by
      have hx : L.length = (pre ++ 1 :: rest).length := by rw [hsplit]
      simp at hx
      omega
    have hrun : S.computerTurn draws =
        .ok (Game.endTurn
               { S with turnScore := 0, diceHistory := S.diceHistory ++ pre ++ [1] },
             pre ++ [1]) := by
      rw [Game.computerTurn]
      simp only [hsome, Bool.false_eq_true, if_neg, reduceIte, hov, ← hcap, ← hLdef,
        hsplit, hloop, List.nil_append]
      simp [Game.endTurn_turnScore]
    refine ⟨⟨_, _, hrun⟩, fun S1 rolls h1 => ?_⟩
    rw [hrun] at h1
    injection h1 with h1
    injection h1 with ha hb
    subst ha; subst hb
    have hlenr : (pre ++ [1]).length = pre.length + 1 := by simp
    refine ⟨by simpa [hlenr] using hleL, ?_, ?_, fun _ => ?_, fun hno => ?_⟩
    · have htake : (pre ++ [1] : List Nat) = L.take (pre.length + 1) := by
        rw [hsplit, List.take_append]
        simp
      have hmin : (pre.length + 1) ⊓ cap = pre.length + 1 := by omega
      rw [hlenr, htake, hLdef, ← List.map_take, List.take_range, hmin]
    · rw [Game.endTurn_diceHistory]
      simp [List.append_assoc]
    · refine ⟨by simp, Game.endTurn_turnScore _, Game.endTurn_computerScore _,
        Game.endTurn_turnHistory _, ?_, by rw [Game.endTurn_gameOver]; exact hov⟩
      exact Game.endTurn_comp_none _ hmode hcur
    · exact absurd (by simp) hno
  · -- no bust within the cap: the total is banked through hold
    have hloop := Game.computerLoop_no_one L S [] hmem
    have helem : ∀ x ∈ L, 2 ≤ x ∧ x ≤ 6 := by
      intro x hx
      rw [hLdef] at hx
      obtain ⟨k, hk, rfl⟩ := List.mem_map.mp hx
      have h1 := hdr k
      have h2 : draws k ≠ 1 := fun hk1 => hmem (hk1 ▸ hx)
      omega
    obtain ⟨hb1, hb2⟩ := nat_list_sum_bounds L helem
    rw [hlen] at hb1 hb2
    have hpos : 0 < L.sum := by omega
    have hrunpre : Game.computerLoop L S [] =
        ({ S with diceHistory := S.diceHistory ++ L, turnScore := L.sum }, L) := by
      rw [hloop, hts]
      simp
    by_cases hw : WINNING_SCORE ≤ S.computerScore + L.sum
    · have hrun : S.computerTurn draws =
          .ok ({ S with
                   diceHistory := S.diceHistory ++ L,
                   computerScore := S.computerScore + L.sum,
                   turnHistory := S.turnHistory ++
                     [{ player := "Computer", turnScore := L.sum,
                        totalScore := S.computerScore + L.sum }],
                   computerWon := true, gameOver := true,
                   turnScore := L.sum }, L) := by
        rw [Game.computerTurn]
        simp only [hsome, Bool.false_eq_true, if_neg, reduceIte, hov, ← hcap, ← hLdef, hrunpre]
        have hne : L.sum ≠ 0 := by omega
        simp only [Game.hold, hov, hne, hcur, hpos, hw, Bool.false_eq_true, if_neg, if_pos,
          reduceIte, and_true, true_and, if_true]
      refine ⟨⟨_, _, hrun⟩, fun S1 rolls h1 => ?_⟩
      rw [hrun] at h1
      injection h1 with h1
      injection h1 with ha hb
      subst ha; subst hb
      refine ⟨le_of_eq hlen, by rw [hlen, ← hLdef], by simp, fun hm => absurd hm hmem,
        fun _ => ⟨hlen, by simp, by simp⟩⟩
    · have hrun : S.computerTurn draws =
          .ok (Game.endTurn
                 { S with
                     diceHistory := S.diceHistory ++ L,
                     computerScore := S.computerScore + L.sum,
                     turnHistory := S.turnHistory ++
                       [{ player := "Computer", turnScore := L.sum,
                          totalScore := S.computerScore + L.sum }],
                     turnScore := L.sum }, L) := by
        rw [Game.computerTurn]
        simp only [hsome, Bool.false_eq_true, if_neg, reduceIte, hov, ← hcap, ← hLdef, hrunpre]
        have hne : L.sum ≠ 0 := by omega
        simp only [Game.hold, hov, hne, hcur, hpos, hw, Bool.false_eq_true, if_neg, if_pos,
          reduceIte, and_true, true_and, if_true, if_false]
      refine ⟨⟨_, _, hrun⟩, fun S1 rolls h1 => ?_⟩
      rw [hrun] at h1
      injection h1 with h1
      injection h1 with ha hb
      subst ha; subst hb
      refine ⟨le_of_eq hlen, by rw [hlen, ← hLdef], ?_, fun hm => absurd hm hmem,
        fun _ => ⟨hlen, ?_, ?_⟩⟩
      · rw [Game.endTurn_diceHistory]
      · rw [Game.endTurn_turnHistory]
      · rw [Game.endTurn_computerScore]

/-- Witness for C7: the noob-difficulty scenario with every draw 1. -/
theorem computer_turn_spec_witness :
    Game.computerTurn noobComputerTurnStart (fun _ => 1) =
      .ok ({ noobComputerTurnStart with
               current := some PSlot.one, diceHistory := [1] }, [1]) ∧
    ([1] : List Nat).getLast? = some 1 ∧
    ({ noobComputerTurnStart with
         current := some PSlot.one, diceHistory := [1] } : Game).turnScore = 0 ∧
    ({ noobComputerTurnStart with
         current := some PSlot.one, diceHistory := [1] } : Game).turnHistory = [] := by
  have h := (computer_turn_spec.1 noobComputerTurnStart (fun _ => 1) rfl rfl rfl rfl
    (fun i => ⟨le_refl 1, by norm_num⟩)).2
    { noobComputerTurnStart with current := some PSlot.one, diceHistory := [1] } [1] (by decide)
  refine ⟨by decide, (h.2.2.2.1 (by decide)).1, (h.2.2.2.1 (by decide)).2.1,
    (h.2.2.2.1 (by decide)).2.2.2.1.trans rfl⟩


/-!
## C1 — the save/load round trip
-/

/-- Counterexample to C1 as stated: from the reachable computer-mode
state `computerSessionEnd` (Alice banks 2, the computer banks 5,
computer score 5), saving succeeds but produces a record with no field
for the computer's score, and loading that record reconstructs
**nothing**: `Game.load_game` invokes `set_name_safely`, a method the
`Player` class it imports does not define, so every load ends in the
caught `AttributeError` and returns a failure message with the
receiving game unchanged.  Saving itself fails (`AttributeError` on
`None.name`) whenever the current player is the computer. -/
theorem save_load_never_reconstructs :
    Game.runOps computerStart computerSessionTrace = some computerSessionEnd ∧
    computerSessionEnd.computerScore = 5 ∧
    Game.saveGame computerSessionEnd = some computerSessionRecord ∧
    (Game.saveGame computerSessionEnd).map (fun D => Game.loadGame D computerStart) =
      some (.error loadFailureMessage) ∧
    Game.saveGame noobComputerTurnStart = none := by decide

/-- C1 (amended): saving writes a record that carries both players'
names, the human players' scores, the current-player name, the turn
total, the game-over flag, the winner's name, the difficulty, and both
histories — but the record shape has no field for the computer's score
or the computer-won flag, and saving fails outright when the computer
is the current player (`None.name`).  Loading never reconstructs any
state at all: its first restore step calls `set_name_safely`, which the
`Player` class the god-class `Game` imports (`src/player.py`) does not
define, so every `load_game` call returns a
`"Failed to restore game state"` message and leaves every field of the
receiving game unchanged (the `AttributeError` fires before any
mutation). -/
theorem save_load_round_trip :
    (∀ (S : Game) (D : SaveData), S.saveGame = some D →
      D.player1Name = S.player1.name ∧ D.player1Score = S.player1.score ∧
      D.player2 = S.player2.map (fun p => (p.name, p.score)) ∧
      some D.currentPlayerName = S.nameOfRef S.current ∧
      D.turnScore = S.turnScore ∧ D.gameOver = S.gameOver ∧
      D.winnerName = S.nameOfRef S.winner ∧
      D.currentDifficulty = S.currentDifficulty ∧
      D.turnHistory = S.turnHistory ∧ D.diceHistory = S.diceHistory) ∧
    (∀ S : Game, S.current = none → S.saveGame = none) ∧
    (∀ (D : SaveData) (σ : Game), Game.loadGame D σ = .error loadFailureMessage) := by
  refine ⟨fun S D h => ?_, fun S hc => ?_, fun D σ => rfl⟩
  · rw [Game.saveGame] at h
    rcases hn : S.nameOfRef S.current with _ | cn
    · rw [hn] at h
      cases h
    · rw [hn] at h
      injection h with h
      subst h
      simp [hn]
  · rw [Game.saveGame, hc]
    rfl

/-- Witness for C1's amended theorem at the concrete session state
`computerSessionEnd` and its save record, plus the computer-turn state
whose save fails. -/
theorem save_load_round_trip_witness :
    (computerSessionRecord.player1Name = computerSessionEnd.player1.name ∧
     computerSessionRecord.player1Score = computerSessionEnd.player1.score ∧
     computerSessionRecord.player2 =
       computerSessionEnd.player2.map (fun p => (p.name, p.score)) ∧
     some computerSessionRecord.currentPlayerName =
       computerSessionEnd.nameOfRef computerSessionEnd.current ∧
     computerSessionRecord.turnScore = computerSessionEnd.turnScore ∧
     computerSessionRecord.gameOver = computerSessionEnd.gameOver ∧
     computerSessionRecord.winnerName =
       computerSessionEnd.nameOfRef computerSessionEnd.winner ∧
     computerSessionRecord.currentDifficulty = computerSessionEnd.currentDifficulty ∧
     computerSessionRecord.turnHistory = computerSessionEnd.turnHistory ∧
     computerSessionRecord.diceHistory = computerSessionEnd.diceHistory) ∧
    Game.saveGame noobComputerTurnStart = none ∧
    Game.loadGame computerSessionRecord computerStart = .error loadFailureMessage :=
  ⟨save_load_round_trip.1 computerSessionEnd computerSessionRecord (by decide),
   save_load_round_trip.2.1 noobComputerTurnStart rfl,
   save_load_round_trip.2.2 computerSessionRecord computerStart⟩


/-!
## C2 — game-over tracks the winning score
-/

theorem Game.endTurn_winningReached (S : Game) :
    S.endTurn.winningReached ↔ S.winningReached := by
  unfold Game.winningReached Game.opponentScore
  rw [Game.endTurn_player1, Game.endTurn_player2, Game.endTurn_computerScore]

theorem Game.endTurn_inv (S : Game) (h : S.Inv) : S.endTurn.Inv := by
  obtain ⟨h1, h2, h3, h4⟩ := h
  refine ⟨?_, ?_, ?_, ?_⟩
  · rw [Game.endTurn_gameOver, Game.endTurn_winningReached]; exact h1
  · rw [Game.endTurn_winner, Game.endTurn_computerWon, Game.endTurn_gameOver]; exact h2
  · rw [Game.endTurn_player2]; exact fun hs => Game.endTurn_current_not_none S hs
  · rw [Game.endTurn_player2]; exact fun hn => Game.endTurn_current_not_two S hn

theorem Game.restart_inv (S : Game) : S.restart.Inv := by
  unfold Game.Inv Game.restart Game.winningReached Game.opponentScore WINNING_SCORE
  cases S.player2 <;> simp

theorem Game.inv_of_fields (S T : Game)
    (h1 : T.player1.score = S.player1.score) (h2 : T.player2 = S.player2)
    (h3 : T.computerScore = S.computerScore) (h4 : T.gameOver = S.gameOver)
    (h5 : T.winner = S.winner) (h6 : T.computerWon = S.computerWon)
    (h7 : T.current = S.current) (hi : S.Inv) : T.Inv := by
  unfold Game.Inv Game.winningReached Game.opponentScore at hi ⊢
  rw [h1, h2, h3, h4, h5, h6, h7]
  exact hi

theorem Game.rollDice_inv (S : Game) (v : Nat) (S1 : Game) (r : Nat)
    (h : S.rollDice v = .ok (S1, r)) (hi : S.Inv) : S1.Inv := by
  rw [Game.rollDice] at h
  by_cases hov : S.gameOver
  · simp [hov] at h
  · have hov2 : S.gameOver = false := by simpa using hov
    simp only [hov, Bool.false_eq_true, if_neg, reduceIte] at h
    by_cases h1 : v = 1 <;> simp only [h1, if_pos, if_neg, reduceIte] at h
    · injection h with h
      injection h with ha hb
      subst ha
      exact Game.endTurn_inv _
        (Game.inv_of_fields S _ rfl rfl rfl hov2.symm rfl rfl rfl hi)
    · injection h with h
      injection h with ha hb
      subst ha
      exact Game.inv_of_fields S _ rfl rfl rfl hov2.symm rfl rfl rfl hi


theorem Game.hold_inv (S S1 : Game) (h : S.hold = .ok S1) (hi : S.Inv) : S1.Inv := by
  obtain ⟨hiff, hwin, hmc1, hmc2⟩ := hi
  rw [Game.hold] at h
  by_cases hov : S.gameOver
  · simp [hov] at h
  have hov2 : S.gameOver = false := by simpa using hov
  simp only [hov, Bool.false_eq_true, if_neg, reduceIte] at h
  by_cases hts : S.turnScore = 0
  · simp [hts] at h
  simp only [hts, if_neg, reduceIte] at h
  have hnw : ¬S.winningReached := by
    intro hw
    have := hiff.mpr hw
    rw [hov2] at this
    cases this
  have hnwc : ¬(S.winner.isSome ∨ S.computerWon = true) := by
    intro hx
    have := hwin.mp hx
    rw [hov2] at this
    cases this
  have hwn : S.winner = none := by
    rcases hww : S.winner with _ | x
    · rfl
    · exact absurd (Or.inl (by rw [hww]; rfl)) hnwc
  have hcwf : S.computerWon = false := by
    rcases hcc : S.computerWon
    · rfl
    · exact absurd (Or.inr hcc) hnwc
  have hp1lt : S.player1.score < WINNING_SCORE := by
    unfold Game.winningReached at hnw
    omega
  have hopp : S.opponentScore < WINNING_SCORE := by
    unfold Game.winningReached at hnw
    omega
  rcases hc : S.current with _ | cs
  · -- computer is acting
    have hp2 : S.player2 = none := by
      rcases hp : S.player2 with _ | q
      · rfl
      · exact absurd hc (hmc1 (by rw [hp]; rfl))
    rw [hc] at h
    have hoppc : S.computerScore < WINNING_SCORE := by
      unfold Game.opponentScore at hopp
      rw [hp2] at hopp
      exact hopp
    by_cases hw : WINNING_SCORE ≤ S.computerScore + S.turnScore <;>
      simp only [hw, if_pos, if_neg, reduceIte] at h <;>
      injection h with h <;> subst h
    · refine ⟨?_, by simp, ?_, ?_⟩
      · simp [Game.winningReached, Game.opponentScore, hp2, hw]
      · intro hs
        rw [hp2] at hs
        cases hs
      · intro _
        simp [hc]
    · refine Game.endTurn_inv _ ⟨?_, ?_, ?_, ?_⟩
      · simp only [Game.winningReached, Game.opponentScore, hp2, hov2]
        constructor
        · intro hfalse; cases hfalse
        · intro hcon; simp at hcon; omega
      · rw [hwn, hcwf]
        simp [hov2]
      · intro hs
        rw [hp2] at hs
        cases hs
      · intro _
        simp [hc]
  · -- a human player is acting
    rw [hc] at h
    cases cs
    · simp only [Game.playerAt, Game.setPlayerAt] at h
      by_cases hw : WINNING_SCORE ≤ S.player1.score + S.turnScore <;>
        simp only [hw, if_pos, if_neg, reduceIte] at h <;>
        injection h with h <;> subst h
      · refine ⟨?_, by simp, ?_, ?_⟩
        · simp [Game.winningReached, hw]
        · intro _
          simp [hc]
        · intro _
          simp [hc]
      · refine Game.endTurn_inv _ ⟨?_, ?_, ?_, ?_⟩
        · simp only [Game.winningReached, Game.opponentScore, hov2]
          constructor
          · intro hfalse; cases hfalse
          · intro hcon
            rcases hcon with hx | hx
            · first
                | omega
                | (simp at hx; omega)
            · exfalso
              unfold Game.opponentScore at hopp
              revert hx hopp
              cases S.player2 <;> simp <;> omega
        · rw [hwn, hcwf]
          simp [hov2]
        · intro _
          simp [hc]
        · intro _
          simp [hc]
    · have hp2 : ∃ q, S.player2 = some q := by
        rcases hp : S.player2 with _ | q
        · exact absurd hc (hmc2 hp)
        · exact ⟨q, rfl⟩
      obtain ⟨q, hq⟩ := hp2
      have hqlt : q.score < WINNING_SCORE := by
        unfold Game.opponentScore at hopp
        rw [hq] at hopp
        exact hopp
      simp only [Game.playerAt, Game.setPlayerAt, hq, Option.getD_some] at h
      by_cases hw : WINNING_SCORE ≤ q.score + S.turnScore <;>
        simp only [hw, if_pos, if_neg, reduceIte] at h <;>
        injection h with h <;> subst h
      · refine ⟨?_, by simp, ?_, ?_⟩
        · simp [Game.winningReached, Game.opponentScore, hw]
        · intro _
          simp [hc]
        · intro hfalse
          cases hfalse
      · refine Game.endTurn_inv _ ⟨?_, ?_, ?_, ?_⟩
        · simp only [Game.winningReached, Game.opponentScore, hov2]
          constructor
          · intro hfalse; cases hfalse
          · intro hcon
            rcases hcon with hx | hx
            · first
                | omega
                | (simp at hx; omega)
            · first
                | omega
                | (simp at hx; omega)
        · rw [hwn, hcwf]
          simp [hov2]
        · intro _
          simp [hc]
        · intro hfalse
          cases hfalse


theorem Game.computerLoop_inv (ds : List Nat) :
    ∀ (S : Game) (acc : List Nat), S.Inv → (Game.computerLoop ds S acc).1.Inv := by
  induction ds with
  | nil => intro S acc hi; exact hi
  | cons v ds ih =>
      intro S acc hi
      by_cases h1 : v = 1 <;> simp only [Game.computerLoop, h1, if_pos, if_neg, reduceIte]
      · exact Game.endTurn_inv _ hi
      · exact ih _ _ hi

theorem Game.computerTurn_inv (S : Game) (draws : Nat → Nat) (S1 : Game) (rolls : List Nat)
    (h : S.computerTurn draws = .ok (S1, rolls)) (hi : S.Inv) : S1.Inv := by
  rw [Game.computerTurn] at h
  by_cases hp2 : S.player2.isSome
  · simp [hp2] at h
  have hp2f : S.player2.isSome = false := by simpa using hp2
  by_cases hov : S.gameOver
  · simp [hp2f, hov] at h
  simp only [hp2f, hov, Bool.false_eq_true, if_neg, reduceIte] at h
  rcases hpair : Game.computerLoop
      ((List.range ((rollCountOf (pyLower S.currentDifficulty)).getD 4)).map draws) S []
    with ⟨Sl, rl⟩
  rw [hpair] at h
  have hSl : Sl.Inv := by
    have hx := Game.computerLoop_inv
      ((List.range ((rollCountOf (pyLower S.currentDifficulty)).getD 4)).map draws) S [] hi
    rw [hpair] at hx
    exact hx
  by_cases hcond : 0 < Sl.turnScore ∧ Sl.gameOver = false
  · simp only [hcond, if_pos, reduceIte] at h
    rcases hh : Sl.hold with e | S2
    · rw [hh] at h; cases h
    · rw [hh] at h
      injection h with h
      injection h with ha hb
      subst ha
      exact Game.hold_inv _ _ hh hSl
  · simp only [hcond, if_neg, reduceIte] at h
    injection h with h
    injection h with ha hb
    subst ha
    exact hSl

theorem Game.applyOp_inv (S S1 : Game) (op : Op) (hnc : op.isCheat = false)
    (h : S.applyOp op = some S1) (hi : S.Inv) : S1.Inv := by
  cases op with
  | roll v =>
      rw [Game.applyOp] at h
      by_cases hb : 1 ≤ v ∧ v ≤ 6
      · simp only [hb, if_pos, reduceIte] at h
        rcases hr : S.rollDice v with e | p
        · rw [hr] at h; cases h
        · obtain ⟨S2, r⟩ := p
          rw [hr] at h
          injection h with h
          subst h
          exact Game.rollDice_inv S v S2 r hr hi
      · simp [hb] at h
  | hold =>
      rw [Game.applyOp] at h
      rcases hh : S.hold with e | S2
      · rw [hh] at h; cases h
      · rw [hh] at h
        injection h with h
        subst h
        exact Game.hold_inv _ _ hh hi
  | restart =>
      rw [Game.applyOp] at h
      injection h with h
      subst h
      exact Game.restart_inv S
  | cheat c => simp [Op.isCheat] at hnc
  | computerTurn ds =>
      rw [Game.applyOp] at h
      by_cases hb : ds.all (fun v => decide (1 ≤ v ∧ v ≤ 6)) = true
      · simp only [hb, if_pos, reduceIte] at h
        rcases hr : S.computerTurn (fun i => ds.getD i 2) with e | p
        · rw [hr] at h
          exact Option.noConfusion h
        · obtain ⟨S2, rl⟩ := p
          rw [hr] at h
          injection h with h
          subst h
          exact Game.computerTurn_inv S _ S2 rl hr hi
      · rw [if_neg hb] at h
        cases h

theorem Game.runOps_inv (ops : List Op) :
    ∀ S S1 : Game, S.Inv → (∀ op ∈ ops, op.isCheat = false) →
      Game.runOps S ops = some S1 → S1.Inv := by
  induction ops with
  | nil =>
      intro S S1 hi _ h
      rw [Game.runOps] at h
      injection h with h
      subst h
      exact hi
  | cons op ops ih =>
      intro S S1 hi hops h
      rw [Game.runOps] at h
      rcases ha : S.applyOp op with _ | Smid
      · rw [ha] at h; cases h
      · rw [ha] at h
        simp only [Option.some_bind] at h
        exact ih Smid S1
          (Game.applyOp_inv S Smid op (hops op (List.mem_cons_self op ops)) ha hi)
          (fun o ho => hops o (List.mem_cons_of_mem _ ho)) h

theorem Game.init_fresh_inv (n1 : String) (p2n : Option String) :
    (Game.init (Player.initGod n1) (p2n.map Player.initGod)).Inv := by
  cases p2n <;>
    simp [Game.Inv, Game.init, Game.winningReached, Game.opponentScore, Player.initGod,
      WINNING_SCORE]


/-- C2 (amended): in every state reachable from a fresh game through
`roll_dice`, `hold`, `restart`, and `computer_turn` (no cheat codes),
the game-over flag is set iff some participant's score has reached the
winning score, and a winner identity (the `winner` reference or the
`_computer_won` flag) is recorded iff the game is over.  Cheat codes do
not preserve this: `WIN` sets `gameOver`/`winner` directly rather than
through `hold`'s win detection, and `BONUS5`/`BONUS15` add points with
no win detection at all (see the counterexample). -/
theorem game_over_iff_winning :
    (∀ (n1 : String) (p2n : Option String) (ops : List Op) (S : Game),
      (∀ op ∈ ops, op.isCheat = false) →
      Game.runOps (Game.init (Player.initGod n1) (p2n.map Player.initGod)) ops = some S →
      (S.gameOver = true ↔ S.winningReached) ∧
      ((S.winner.isSome ∨ S.computerWon = true) ↔ S.gameOver = true)) := by
  intro n1 p2n ops S hops hrun
  have hinv := Game.runOps_inv ops _ S (Game.init_fresh_inv n1 p2n) hops hrun
  exact ⟨hinv.1, hinv.2.1⟩

/-- Witness for C2's amended theorem at the empty trace. -/
theorem game_over_iff_winning_witness :
    (computerStart.gameOver = true ↔ computerStart.winningReached) ∧
    ((computerStart.winner.isSome ∨ computerStart.computerWon = true) ↔
      computerStart.gameOver = true) :=
  game_over_iff_winning "Alice" none [] computerStart (by simp) rfl

/-- Counterexample to C2 as stated: seven `BONUS15` cheats from a
fresh computer-mode game reach a state with 105 points whose game-over
flag is still false and with no winner recorded — the bonus cheats do
not route through `hold`'s win-detection path. -/
theorem bonus_cheat_skips_win_detection :
    Game.runOps computerStart (List.replicate 7 (Op.cheat "BONUS15")) = some bonusCheatedEnd ∧
    WINNING_SCORE ≤ bonusCheatedEnd.player1.score ∧
    bonusCheatedEnd.gameOver = false ∧ bonusCheatedEnd.winner = none ∧
    bonusCheatedEnd.computerWon = false := by decide

end Pig
